import Mathlib

/-!
Verification of the `spinlock` repository (src/src/main.rs).

The source is a busy-wait mutual-exclusion primitive:

  - `SpinLock<T>` holds `locked : AtomicBool` and `value : UnsafeCell<T>`;
  - `SpinLock::new(value)` builds `{ locked: false, value }`;
  - `SpinLock::lock` spins on `locked.swap(true, Acquire)` until the previous
    value is `false`, then returns a `Guard` borrowing the lock;
  - `SpinLock::unlock` runs `locked.store(false, Release)`;
  - `Drop for Guard` runs `self.lock.locked.store(false, Release)`;
  - `Deref`/`DerefMut` for `Guard` return (mutable) references to the
    protected value without touching the flag;
  - `main` drives two threads pushing onto a shared `Vec` and asserts the
    final contents.

The shallow embedding below models the lock's shared state (the atomic flag
plus the protected value) as an explicit record threaded through the atomic
operations, and models the concurrent driver as a small-step interleaving
semantics over a system of threads.
-/

namespace Spinlock

/-- State of one `SpinLock<T>`: the `AtomicBool` flag and the protected
value stored in the `UnsafeCell`. -/
structure SpinLock (T : Type) where
  locked : Bool
  value : T
deriving DecidableEq, Repr

variable {T : Type}

/-- `AtomicBool::swap`: one atomic read-modify-write that returns the
previous flag value and stores the new one. The protected value is
untouched. -/
def atomicSwap (b : Bool) (s : SpinLock T) : Bool × SpinLock T :=
  (s.locked, { s with locked := b })

/-- `AtomicBool::store`: one atomic store of the flag. The protected value
is untouched. -/
def atomicStore (b : Bool) (s : SpinLock T) : SpinLock T :=
  { s with locked := b }

/-- `SpinLock::new(value)`: `{ locked: AtomicBool::new(false), value }`. -/
def SpinLock.new (v : T) : SpinLock T :=
  { locked := false, value := v }

/-- `SpinLock::unlock`: `self.locked.store(false, Release)`. -/
def SpinLock.unlock (s : SpinLock T) : SpinLock T :=
  atomicStore false s

/-- `Drop for Guard`: `self.lock.locked.store(false, Release)`. -/
def guardDrop (s : SpinLock T) : SpinLock T :=
  atomicStore false s

/-- One iteration of the loop body of `SpinLock::lock`: the single
test-and-set `self.locked.swap(true, Acquire)`. `none` means the previous
value was `true` (the attempt failed and the loop retries on the post-swap
state); `some` carries the state in which the caller now holds the lock. -/
def lockAttempt (s : SpinLock T) : Option (SpinLock T) :=
  let r := atomicSwap true s
  if r.1 then none else some r.2

/-- `SpinLock::lock`, with explicit fuel bounding the number of loop
iterations so the spin loop is expressible as a total function: each
iteration performs `locked.swap(true, Acquire)` and retries (after the
`spin_loop` hint, which has no effect on this state) while the previous
value was `true`. `none` means the given number of iterations did not
acquire the lock. -/
def SpinLock.lock : Nat → SpinLock T → Option (SpinLock T)
  | 0, _ => none
  | fuel + 1, s =>
    let r := atomicSwap true s
    if r.1 then SpinLock.lock fuel r.2 else some r.2

/-- `Deref for Guard`: `&*self.lock.value.get()` — reads the protected
value, no synchronization check, no flag access. -/
def Guard.deref (s : SpinLock T) : T :=
  s.value

/-- `DerefMut for Guard`, read side: `&mut *self.lock.value.get()` viewed
as a read — same value, no flag access. -/
def Guard.derefMut (s : SpinLock T) : T :=
  s.value

/-- A write through the mutable reference returned by `DerefMut for
Guard`: replaces the protected value; the flag is untouched. -/
def Guard.writeThrough (x : T) (s : SpinLock T) : SpinLock T :=
  { s with value := x }

/-!
Interleaving semantics for threads sharing one lock, modelling the use made
of the lock by `main`: each thread runs a list of critical sections; one
critical section acquires the lock, pushes a fixed list of numbers onto the
shared vector one by one, and drops its `Guard`. Every step of the relation
is one atomic event — the `swap` of an acquire attempt, one push through
the `Guard`, or the releasing `store` performed by `Drop`.
-/

/-- Local state of one thread. `holding = some (done, todo)` means the
thread's last `swap` won the flag and it now owns the live `Guard` for the
current critical section, having already pushed `done` with `todo` still to
push; `holding = none` means the thread holds no `Guard`. `rest` is the
list of critical sections the thread has not yet entered. -/
structure ThreadSt where
  holding : Option (List Nat × List Nat)
  rest : List (List Nat)
deriving DecidableEq, Repr

/-- Global state of the interleaved system: the atomic flag, the shared
vector, the ghost history `completed` of critical sections that have fully
run (in release order), and the thread-local states. -/
structure Sys where
  locked : Bool
  value : List Nat
  completed : List (List Nat)
  threads : List ThreadSt
deriving DecidableEq, Repr

/-- The initial system: a fresh `SpinLock::new(Vec::new())` shared by
threads that each still have all their critical sections ahead of them. -/
def initSys (progs : List (List (List Nat))) : Sys :=
  { locked := false, value := [], completed := [],
    threads := progs.map (fun p => { holding := none, rest := p }) }

/-- One atomic step of thread `i`, as a function: `none` when thread `i`
does not exist or has finished. A thread with no `Guard` and a pending
critical section executes the `swap(true, Acquire)` of `SpinLock::lock`:
if the previous flag value was `true` the attempt fails and the state is
unchanged (the thread spins); if it was `false` the thread now holds the
`Guard`. A thread holding a `Guard` with pending pushes appends the next
number to the shared vector through the `Guard`. A thread holding a
`Guard` with no pending push drops it, which runs
`locked.store(false, Release)`. -/
def stepFn (s : Sys) (i : Nat) : Option Sys :=
  match s.threads[i]? with
  | none => none
  | some t =>
    match t.holding with
    | none =>
      match t.rest with
      | [] => none
      | cs :: rs =>
        if s.locked then some s
        else
          some { locked := true, value := s.value, completed := s.completed,
                 threads := s.threads.set i { holding := some ([], cs), rest := rs } }
    | some (d, []) =>
      some { locked := false, value := s.value, completed := s.completed ++ [d],
             threads := s.threads.set i { holding := none, rest := t.rest } }
    | some (d, n :: todo) =>
      some { locked := s.locked, value := s.value ++ [n], completed := s.completed,
             threads := s.threads.set i { holding := some (d ++ [n], todo), rest := t.rest } }

/-- One atomic step of the system: some thread takes its step. -/
def Step (s s' : Sys) : Prop :=
  ∃ i, stepFn s i = some s'

/-- Reachability: reflexive-transitive closure of `Step`. -/
def Reach : Sys → Sys → Prop :=
  Relation.ReflTransGen Step

/-- At most one live `Guard` exists: any two threads holding one are the
same thread. -/
def mutualExclusion (s : Sys) : Prop :=
  ∀ (i j : Nat) (ti tj : ThreadSt),
    s.threads[i]? = some ti → s.threads[j]? = some tj →
    ti.holding.isSome = true → tj.holding.isSome = true → i = j

/-- When the flag reads free, no live `Guard` exists at all. -/
def freeMeansNoGuard (s : Sys) : Prop :=
  s.locked = false →
    ∀ (i : Nat) (ti : ThreadSt), s.threads[i]? = some ti → ti.holding = none

/-- The shared vector is the concatenation of the fully completed critical
sections followed by the part already pushed by the current `Guard` holder
(nothing, when no `Guard` is live): critical sections are never
interleaved in the observable value. -/
def valueShape (s : Sys) : Prop :=
  ((∀ (i : Nat) (ti : ThreadSt), s.threads[i]? = some ti → ti.holding = none) →
      s.value = s.completed.flatten) ∧
  (∀ (i : Nat) (ti : ThreadSt) (d td : List Nat),
      s.threads[i]? = some ti → ti.holding = some (d, td) →
      s.value = s.completed.flatten ++ d)

/-- The full inductive invariant of the interleaved system. -/
def sysInv (s : Sys) : Prop :=
  freeMeansNoGuard s ∧ mutualExclusion s ∧ valueShape s

/-- All threads have finished: no live `Guard`, no pending section. -/
def allDone (s : Sys) : Bool :=
  s.threads.all (fun t => t.holding.isNone && t.rest.isEmpty)

/-- `L.closedUnder = true` checks that every enabled step out of a state
in `L` lands in `L`. -/
def closedUnder (L : List Sys) : Bool :=
  L.all (fun s =>
    (List.range s.threads.length).all (fun i =>
      match stepFn s i with
      | none => true
      | some s' => decide (s' ∈ L)))

/-- The driver scenario of `main`: thread A pushes `1` once; thread B
pushes `2` twice inside a single critical section. -/
def scenarioInit : Sys :=
  initSys [[[1]], [[2, 2]]]

/-- Every state reachable in the `main` scenario. -/
def scenarioStates : List Sys :=
  [ { locked := false, value := [], completed := [],
      threads := [{ holding := none, rest := [[1]] }, { holding := none, rest := [[2, 2]] }] },
    { locked := true, value := [], completed := [],
      threads := [{ holding := some ([], [1]), rest := [] }, { holding := none, rest := [[2, 2]] }] },
    { locked := true, value := [1], completed := [],
      threads := [{ holding := some ([1], []), rest := [] }, { holding := none, rest := [[2, 2]] }] },
    { locked := false, value := [1], completed := [[1]],
      threads := [{ holding := none, rest := [] }, { holding := none, rest := [[2, 2]] }] },
    { locked := true, value := [1], completed := [[1]],
      threads := [{ holding := none, rest := [] }, { holding := some ([], [2, 2]), rest := [] }] },
    { locked := true, value := [1, 2], completed := [[1]],
      threads := [{ holding := none, rest := [] }, { holding := some ([2], [2]), rest := [] }] },
    { locked := true, value := [1, 2, 2], completed := [[1]],
      threads := [{ holding := none, rest := [] }, { holding := some ([2, 2], []), rest := [] }] },
    { locked := false, value := [1, 2, 2], completed := [[1], [2, 2]],
      threads := [{ holding := none, rest := [] }, { holding := none, rest := [] }] },
    { locked := true, value := [], completed := [],
      threads := [{ holding := none, rest := [[1]] }, { holding := some ([], [2, 2]), rest := [] }] },
    { locked := true, value := [2], completed := [],
      threads := [{ holding := none, rest := [[1]] }, { holding := some ([2], [2]), rest := [] }] },
    { locked := true, value := [2, 2], completed := [],
      threads := [{ holding := none, rest := [[1]] }, { holding := some ([2, 2], []), rest := [] }] },
    { locked := false, value := [2, 2], completed := [[2, 2]],
      threads := [{ holding := none, rest := [[1]] }, { holding := none, rest := [] }] },
    { locked := true, value := [2, 2], completed := [[2, 2]],
      threads := [{ holding := some ([], [1]), rest := [] }, { holding := none, rest := [] }] },
    { locked := true, value := [2, 2, 1], completed := [[2, 2]],
      threads := [{ holding := some ([1], []), rest := [] }, { holding := none, rest := [] }] },
    { locked := false, value := [2, 2, 1], completed := [[2, 2], [1]],
      threads := [{ holding := none, rest := [] }, { holding := none, rest := [] }] } ]

theorem atomicSwap_fst (b : Bool) (s : SpinLock T) :
    (atomicSwap b s).1 = s.locked := rfl

theorem atomicSwap_snd (b : Bool) (s : SpinLock T) :
    (atomicSwap b s).2 = { s with locked := b } := rfl

theorem lockAttempt_eq_none_iff (s : SpinLock T) :
    lockAttempt s = none ↔ s.locked = true := by
  cases s with
  | mk l v => cases l <;> simp [lockAttempt, atomicSwap]

theorem lockAttempt_of_free (s : SpinLock T) (h : s.locked = false) :
    lockAttempt s = some { s with locked := true } := by
  simp [lockAttempt, atomicSwap, h]

theorem lock_succ_of_free (fuel : Nat) (s : SpinLock T) (h : s.locked = false) :
    SpinLock.lock (fuel + 1) s = some { s with locked := true } := by
  simp [SpinLock.lock, atomicSwap, h]

theorem lock_of_held (fuel : Nat) (s : SpinLock T) (h : s.locked = true) :
    SpinLock.lock fuel s = none := by
  induction fuel with
  | zero => rfl
  | succ n ih =>
    cases s with
    | mk l v =>
      cases l with
      | false => simp at h
      | true => simpa [SpinLock.lock, atomicSwap] using ih

theorem lock_locked_of_some (fuel : Nat) (s s' : SpinLock T)
    (h : SpinLock.lock fuel s = some s') : s'.locked = true := by
  induction fuel generalizing s with
  | zero => simp [SpinLock.lock] at h
  | succ n ih =>
    by_cases hl : s.locked = true
    · rw [lock_of_held (n + 1) s hl] at h
      exact absurd h (by simp)
    · rw [lock_succ_of_free n s (by simpa using hl)] at h
      cases h
      rfl

theorem lock_value_of_some (fuel : Nat) (s s' : SpinLock T)
    (h : SpinLock.lock fuel s = some s') : s'.value = s.value := by
  induction fuel generalizing s with
  | zero => simp [SpinLock.lock] at h
  | succ n ih =>
    by_cases hl : s.locked = true
    · rw [lock_of_held (n + 1) s hl] at h
      exact absurd h (by simp)
    · rw [lock_succ_of_free n s (by simpa using hl)] at h
      cases h
      rfl

theorem getElem?_set_cases {α : Type} {l : List α} {i j : Nat} {a t : α}
    (hi : i < l.length) (h : (l.set i a)[j]? = some t) :
    (j = i ∧ t = a) ∨ (j ≠ i ∧ l[j]? = some t) := by
  by_cases hji : j = i
  · subst hji
    rw [List.getElem?_set_self hi] at h
    exact Or.inl ⟨rfl, (Option.some_inj.mp h).symm⟩
  · right
    refine ⟨hji, ?_⟩
    rwa [List.getElem?_set_ne (fun hij => hji hij.symm)] at h

theorem sysInv_init (progs : List (List (List Nat))) : sysInv (initSys progs) := by
  have hnone : ∀ (i : Nat) (ti : ThreadSt),
      (initSys progs).threads[i]? = some ti → ti.holding = none := by
    intro i ti h
    simp only [initSys, List.getElem?_map] at h
    obtain ⟨p, _, hp⟩ := Option.map_eq_some'.mp h
    rw [← hp]
  refine ⟨fun _ => hnone, ?_, ?_, ?_⟩
  · intro i j ti tj hti htj hsi _
    rw [hnone i ti hti] at hsi
    simp at hsi
  · intro _
    rfl
  · intro i ti d td hti hh
    rw [hnone i ti hti] at hh
    simp at hh

theorem sysInv_step {s s' : Sys} {i : Nat} (hI : sysInv s) (h : stepFn s i = some s') :
    sysInv s' := by
  obtain ⟨hFree, hMux, hShapeN, hShapeH⟩ := hI
  unfold stepFn at h
  cases ht : s.threads[i]? with
  | none =>
    rw [ht] at h
    exact absurd h (by simp)
  | some t =>
    rw [ht] at h
    dsimp only at h
    have hlen : i < s.threads.length := (List.getElem?_eq_some_iff.mp ht).1
    cases hh : t.holding with
    | none =>
      rw [hh] at h
      dsimp only at h
      cases hr : t.rest with
      | nil =>
        rw [hr] at h
        exact absurd h (by simp)
      | cons cs rs =>
        rw [hr] at h
        dsimp only at h
        cases hl : s.locked with
        | true =>
          rw [hl, if_pos rfl] at h
          injection h with h
          subst h
          exact ⟨hFree, hMux, hShapeN, hShapeH⟩
        | false =>
          rw [hl, if_neg (by decide : ¬(false = true))] at h
          injection h with h
          subst h
          have hAllNone := hFree hl
          refine ⟨?_, ?_, ?_, ?_⟩
          · intro hcontra
            simp at hcontra
          · intro a b ta tb hta htb hsa hsb
            rcases getElem?_set_cases hlen hta with ⟨hai, _⟩ | ⟨_, hta'⟩
            · rcases getElem?_set_cases hlen htb with ⟨hbi, _⟩ | ⟨_, htb'⟩
              · rw [hai, hbi]
              · rw [hAllNone b tb htb'] at hsb
                simp at hsb
            · rw [hAllNone a ta hta'] at hsa
              simp at hsa
          · intro hall
            have := hall i { holding := some ([], cs), rest := rs }
              (by simp [List.getElem?_set_self hlen])
            simp at this
          · intro a ta d td hta hhold
            rcases getElem?_set_cases hlen hta with ⟨_, hval⟩ | ⟨_, hta'⟩
            · rw [hval] at hhold
              simp only at hhold
              obtain ⟨hd, _⟩ := Prod.mk.injEq .. ▸ Option.some_inj.mp hhold
              simp only
              rw [← hd, List.append_nil]
              exact hShapeN hAllNone
            · rw [hAllNone a ta hta'] at hhold
              simp at hhold
    | some p =>
      obtain ⟨d, td⟩ := p
      have hheld : s.locked = true := by
        cases hl : s.locked with
        | false =>
          have := hFree hl i t ht
          rw [hh] at this
          simp at this
        | true => rfl
      have honly : ∀ (a : Nat) (ta : ThreadSt), s.threads[a]? = some ta →
          ta.holding.isSome = true → a = i := by
        intro a ta hta hsa
        exact hMux a i ta t hta ht hsa (by rw [hh]; rfl)
      cases td with
      | nil =>
        rw [hh] at h
        dsimp only at h
        simp only [Option.some_inj] at h
        subst h
        have hNoneAfter : ∀ (a : Nat) (ta : ThreadSt),
            (s.threads.set i { holding := none, rest := t.rest })[a]? = some ta →
            ta.holding = none := by
          intro a ta hta
          rcases getElem?_set_cases hlen hta with ⟨_, hval⟩ | ⟨hne, hta'⟩
          · rw [hval]
          · cases hcase : ta.holding with
            | none => rfl
            | some q =>
              exact absurd (honly a ta hta' (by rw [hcase]; rfl)) hne
        refine ⟨fun _ => hNoneAfter, ?_, ?_, ?_⟩
        · intro a b ta tb hta htb hsa _
          rw [hNoneAfter a ta hta] at hsa
          simp at hsa
        · intro _
          simp only
          rw [List.flatten_append, List.flatten_cons, List.flatten_nil, List.append_nil]
          exact hShapeH i t d [] ht hh
        · intro a ta d' td' hta hhold
          rw [hNoneAfter a ta hta] at hhold
          simp at hhold
      | cons n todo =>
        rw [hh] at h
        dsimp only at h
        simp only [Option.some_inj] at h
        subst h
        refine ⟨?_, ?_, ?_, ?_⟩
        · intro hcontra
          simp only at hcontra
          rw [hheld] at hcontra
          simp at hcontra
        · intro a b ta tb hta htb hsa hsb
          rcases getElem?_set_cases hlen hta with ⟨hai, _⟩ | ⟨_, hta'⟩
          · rcases getElem?_set_cases hlen htb with ⟨hbi, _⟩ | ⟨_, htb'⟩
            · rw [hai, hbi]
            · rw [hai, honly b tb htb' hsb]
          · rw [honly a ta hta' hsa]
            rcases getElem?_set_cases hlen htb with ⟨hbi, _⟩ | ⟨_, htb'⟩
            · rw [hbi]
            · rw [honly b tb htb' hsb]
        · intro hall
          have := hall i { holding := some (d ++ [n], todo), rest := t.rest }
            (by simp [List.getElem?_set_self hlen])
          simp at this
        · intro a ta d' td' hta hhold
          rcases getElem?_set_cases hlen hta with ⟨_, hval⟩ | ⟨hne, hta'⟩
          · rw [hval] at hhold
            simp only at hhold
            obtain ⟨hd, _⟩ := Prod.mk.injEq .. ▸ Option.some_inj.mp hhold
            simp only
            rw [← hd, ← List.append_assoc]
            rw [hShapeH i t d (n :: todo) ht hh]
          · exact absurd (honly a ta hta' (by rw [hhold]; rfl)) hne

theorem sysInv_reach {s0 s : Sys} (h0 : sysInv s0) (h : Reach s0 s) : sysInv s := by
  induction h with
  | refl => exact h0
  | tail _ hstep ih =>
    obtain ⟨i, hi⟩ := hstep
    exact sysInv_step ih hi

theorem stepFn_none_of_length_le {s : Sys} {i : Nat} (h : s.threads.length ≤ i) :
    stepFn s i = none := by
  unfold stepFn
  rw [List.getElem?_eq_none h]

theorem mem_of_closed {L : List Sys} (hC : closedUnder L = true) {s s' : Sys}
    (hs : s ∈ L) {i : Nat} (h : stepFn s i = some s') : s' ∈ L := by
  rcases Nat.lt_or_ge i s.threads.length with hi | hi
  · have h1 := List.all_eq_true.mp hC s hs
    have h2 := List.all_eq_true.mp h1 i (List.mem_range.mpr hi)
    rw [h] at h2
    exact of_decide_eq_true h2
  · rw [stepFn_none_of_length_le hi] at h
    cases h

theorem reach_mem {L : List Sys} (hC : closedUnder L = true) {s0 s : Sys}
    (h0 : s0 ∈ L) (h : Reach s0 s) : s ∈ L := by
  induction h with
  | refl => exact h0
  | tail _ hstep ih =>
    obtain ⟨i, hi⟩ := hstep
    exact mem_of_closed hC ih hi

theorem lockAttempt_locked_of_some (s s' : SpinLock T)
    (h : lockAttempt s = some s') : s'.locked = true := by
  cases hl : s.locked with
  | false =>
    rw [lockAttempt_of_free s hl] at h
    cases h
    rfl
  | true =>
    rw [(lockAttempt_eq_none_iff s).mpr hl] at h
    cases h

/-- Claim C1: in every state reachable by interleaving the threads' atomic
events from a freshly created lock, at most one live `Guard` exists (any
two threads holding one are the same thread), a free flag means no live
`Guard`, and the shared value is always the concatenation of whole
completed critical sections followed by the pushes of the unique current
`Guard` holder — so no interleaving of two threads' critical-section
operations is observable. -/
theorem C1_mutual_exclusion (progs : List (List (List Nat))) (s : Sys)
    (h : Reach (initSys progs) s) :
    mutualExclusion s ∧ freeMeansNoGuard s ∧ valueShape s := by
  obtain ⟨h1, h2, h3⟩ := sysInv_reach (sysInv_init progs) h
  exact ⟨h2, h1, h3⟩

/-- Witness for C1: the state one step into the driver scenario, where
thread A has just acquired the lock (fields of `Sys` in order: `locked`,
`value`, `completed`, `threads`). -/
theorem C1_mutual_exclusion_witness :
    mutualExclusion ⟨true, [], [], [⟨some ([], [1]), []⟩, ⟨none, [[2, 2]]⟩]⟩ ∧
    freeMeansNoGuard ⟨true, [], [], [⟨some ([], [1]), []⟩, ⟨none, [[2, 2]]⟩]⟩ ∧
    valueShape ⟨true, [], [], [⟨some ([], [1]), []⟩, ⟨none, [[2, 2]]⟩]⟩ :=
  C1_mutual_exclusion [[[1]], [[2, 2]]] _
    (Relation.ReflTransGen.single ⟨0, by decide⟩)

/-- Claim C2: acquire is a single atomic test-and-set in a retry loop: an
attempt fails exactly when the previous flag value was held, a failed swap
leaves the lock state unchanged (so the loop retries), a free previous
value means the attempt succeeds with the flag now held, and whenever
`lock` returns at all, the flag is held. -/
theorem C2_lock_test_and_set (s : SpinLock T) :
    (lockAttempt s = none ↔ s.locked = true) ∧
    (s.locked = true → (atomicSwap true s).2 = s) ∧
    (s.locked = false → lockAttempt s = some { s with locked := true }) ∧
    (∀ fuel s', SpinLock.lock fuel s = some s' → s'.locked = true) := by
  refine ⟨lockAttempt_eq_none_iff s, ?_, lockAttempt_of_free s,
    fun fuel s' h => lock_locked_of_some fuel s s' h⟩
  intro h
  cases s with
  | mk l v =>
    cases l with
    | false => cases h
    | true => rfl

/-- Witness for C2 on concrete lock states over `Nat`. -/
theorem C2_lock_test_and_set_witness :
    lockAttempt { locked := true, value := (0 : Nat) } = none ∧
    (atomicSwap true { locked := true, value := (0 : Nat) }).2 =
      { locked := true, value := 0 } ∧
    lockAttempt { locked := false, value := (0 : Nat) } =
      some { locked := true, value := 0 } ∧
    ({ locked := true, value := (0 : Nat) } : SpinLock Nat).locked = true :=
  ⟨(C2_lock_test_and_set _).1.mpr rfl,
   (C2_lock_test_and_set _).2.1 rfl,
   (C2_lock_test_and_set _).2.2.1 rfl,
   (C2_lock_test_and_set { locked := false, value := 0 }).2.2.2 1 _ rfl⟩

/-- Claim C3: the `Guard` destructor performs exactly the Lock's release
path — the single atomic store of `false` — leaving the flag free and the
value untouched; and neither a successful attempt nor `lock` ever returns
the flag to free, so Guard destruction / `unlock` is the sole normal
transition back to the free state. -/
theorem C3_guard_drop_release (s : SpinLock T) :
    guardDrop s = SpinLock.unlock s ∧
    guardDrop s = atomicStore false s ∧
    (guardDrop s).locked = false ∧
    (guardDrop s).value = s.value ∧
    (∀ s', lockAttempt s = some s' → s'.locked = true) ∧
    (∀ fuel s', SpinLock.lock fuel s = some s' → s'.locked = true) :=
  ⟨rfl, rfl, rfl, rfl,
   fun s' h => lockAttempt_locked_of_some s s' h,
   fun fuel s' h => lock_locked_of_some fuel s s' h⟩

/-- Witness for C3 on a concrete held lock over `Nat`. -/
theorem C3_guard_drop_release_witness :
    guardDrop { locked := true, value := (7 : Nat) } =
      SpinLock.unlock { locked := true, value := 7 } ∧
    (guardDrop { locked := true, value := (7 : Nat) }).locked = false ∧
    ({ locked := true, value := (7 : Nat) } : SpinLock Nat).locked = true :=
  ⟨(C3_guard_drop_release _).1,
   (C3_guard_drop_release _).2.2.1,
   (C3_guard_drop_release { locked := false, value := 7 }).2.2.2.2.1 _ rfl⟩

/-- Claim C4: `SpinLock::new(v)` builds a lock whose flag is free and whose
protected value is `v`. -/
theorem C4_new_unlocked (v : T) :
    (SpinLock.new v).locked = false ∧ (SpinLock.new v).value = v :=
  ⟨rfl, rfl⟩

/-- Claim C5: destroying a `Guard` puts the flag back to free, after which
any acquire succeeds with the protected value intact; and on an unlocked
lock, acquire followed by the `Guard` destructor is the identity. -/
theorem C5_reusable_round_trip (s : SpinLock T) :
    (guardDrop s).locked = false ∧
    (∀ fuel, SpinLock.lock (fuel + 1) (guardDrop s) =
        some { locked := true, value := s.value }) ∧
    (s.locked = false →
        Option.map guardDrop (SpinLock.lock 1 s) = some s) := by
  refine ⟨rfl, ?_, ?_⟩
  · intro fuel
    rw [lock_succ_of_free fuel (guardDrop s) rfl]
    rfl
  · intro h
    rw [lock_succ_of_free 0 s h]
    cases s with
    | mk l v =>
      cases l with
      | false => rfl
      | true => cases h

/-- Witness for C5 on concrete lock states over `Nat`. -/
theorem C5_reusable_round_trip_witness :
    (guardDrop { locked := true, value := (4 : Nat) }).locked = false ∧
    SpinLock.lock 1 (guardDrop { locked := true, value := (4 : Nat) }) =
      some { locked := true, value := 4 } ∧
    Option.map guardDrop (SpinLock.lock 1 { locked := false, value := (4 : Nat) }) =
      some { locked := false, value := 4 } :=
  ⟨(C5_reusable_round_trip _).1,
   (C5_reusable_round_trip { locked := true, value := 4 }).2.1 0,
   (C5_reusable_round_trip { locked := false, value := 4 }).2.2 rfl⟩

/-- Claim C6: dereferencing a `Guard` (shared or mutable) yields exactly
the protected value, and a write through the mutable reference changes
only the value — the flag is never read or written by these operations. -/
theorem C6_guard_deref_no_sync (s : SpinLock T) (x : T) :
    Guard.deref s = s.value ∧
    Guard.derefMut s = s.value ∧
    (Guard.writeThrough x s).locked = s.locked ∧
    (Guard.writeThrough x s).value = x :=
  ⟨rfl, rfl, rfl, rfl⟩

/-- Claim C7: calling `unlock` while the `Guard` of the same acquisition is
alive releases the flag once; the `Guard` destructor will then perform the
very same releasing store a second time, and if a third party acquires
between the two releases, the spurious second release frees the flag out
from under it. -/
theorem C7_manual_release_hazard (s : SpinLock T) (_h : s.locked = true) :
    (SpinLock.unlock s).locked = false ∧
    guardDrop (SpinLock.unlock s) = SpinLock.unlock (SpinLock.unlock s) ∧
    (guardDrop (SpinLock.unlock s)).locked = false ∧
    (∀ s2, lockAttempt (SpinLock.unlock s) = some s2 →
        s2.locked = true ∧ (guardDrop s2).locked = false) := by
  refine ⟨rfl, rfl, rfl, ?_⟩
  intro s2 h2
  exact ⟨lockAttempt_locked_of_some _ s2 h2, rfl⟩

/-- Witness for C7 on a concrete held lock over `Nat`. -/
theorem C7_manual_release_hazard_witness :
    ({ locked := true, value := (9 : Nat) } : SpinLock Nat).locked = true ∧
    (SpinLock.unlock { locked := true, value := (9 : Nat) }).locked = false ∧
    ({ locked := true, value := (9 : Nat) } : SpinLock Nat).locked = true ∧
    (guardDrop { locked := true, value := (9 : Nat) }).locked = false :=
  ⟨rfl,
   (C7_manual_release_hazard { locked := true, value := 9 } rfl).1,
   ((C7_manual_release_hazard { locked := true, value := 9 } rfl).2.2.2
      { locked := true, value := 9 } rfl).1,
   ((C7_manual_release_hazard { locked := true, value := 9 } rfl).2.2.2
      { locked := true, value := 9 } rfl).2⟩

/-- Claim C9: acquire has no error return and no retry bound — as long as
the flag stays held the loop spins for any number of iterations without
producing a result, and whenever the flag is free a single iteration
suffices for any remaining fuel. -/
theorem C9_lock_never_fails_spins (s : SpinLock T) :
    (s.locked = true → ∀ fuel, SpinLock.lock fuel s = none) ∧
    (s.locked = false → ∀ fuel,
        SpinLock.lock (fuel + 1) s = some { s with locked := true }) :=
  ⟨fun h fuel => lock_of_held fuel s h,
   fun h fuel => lock_succ_of_free fuel s h⟩

/-- Witness for C9 on concrete lock states over `Nat`. -/
theorem C9_lock_never_fails_spins_witness :
    SpinLock.lock 5 { locked := true, value := (0 : Nat) } = none ∧
    SpinLock.lock 1 { locked := false, value := (0 : Nat) } =
      some { locked := true, value := 0 } :=
  ⟨(C9_lock_never_fails_spins _).1 rfl 5,
   (C9_lock_never_fails_spins _).2 rfl 0⟩

/-- Claim C10: `unlock`, the `Guard` destructor and acquire all leave the
protected value unchanged, and releasing an already-free lock leaves the
entire state unchanged. -/
theorem C10_frame_value_unchanged (s : SpinLock T) :
    (SpinLock.unlock s).value = s.value ∧
    (guardDrop s).value = s.value ∧
    (∀ fuel s', SpinLock.lock fuel s = some s' → s'.value = s.value) ∧
    (s.locked = false → SpinLock.unlock s = s) := by
  refine ⟨rfl, rfl, fun fuel s' h => lock_value_of_some fuel s s' h, ?_⟩
  intro h
  cases s with
  | mk l v =>
    cases l with
    | false => rfl
    | true => cases h

/-- Witness for C10 on a concrete free lock over `Nat`. -/
theorem C10_frame_value_unchanged_witness :
    (SpinLock.unlock { locked := false, value := (3 : Nat) }).value = 3 ∧
    SpinLock.unlock { locked := false, value := (3 : Nat) } =
      { locked := false, value := 3 } :=
  ⟨(C10_frame_value_unchanged _).1,
   (C10_frame_value_unchanged _).2.2.2 rfl⟩

/-- Claim C8: in the driver scenario of `main` — thread A pushes `1` once,
thread B pushes `2` twice inside one critical section — every reachable
state in which both threads have finished has a free flag and a final
sequence of exactly `[1, 2, 2]` or `[2, 2, 1]`, never `[2, 1, 2]`. -/
theorem C8_scenario_final (s : Sys)
    (h : Reach scenarioInit s) (hdone : allDone s = true) :
    s.locked = false ∧ (s.value = [1, 2, 2] ∨ s.value = [2, 2, 1]) ∧
      s.value ≠ [2, 1, 2] := by
  have hmem : s ∈ scenarioStates := reach_mem (by decide) (by decide) h
  have hall : ∀ x ∈ scenarioStates, allDone x = true →
      x.locked = false ∧ (x.value = [1, 2, 2] ∨ x.value = [2, 2, 1]) ∧
        x.value ≠ [2, 1, 2] := by decide
  exact hall s hmem hdone

/-- Witness for C8: the execution in which thread A runs its whole critical
section first reaches the terminal state with final sequence `[1, 2, 2]`. -/
theorem C8_scenario_final_witness :
    allDone ⟨false, [1, 2, 2], [[1], [2, 2]], [⟨none, []⟩, ⟨none, []⟩]⟩ = true ∧
    ((⟨false, [1, 2, 2], [[1], [2, 2]], [⟨none, []⟩, ⟨none, []⟩]⟩ : Sys).locked = false ∧
      ((⟨false, [1, 2, 2], [[1], [2, 2]], [⟨none, []⟩, ⟨none, []⟩]⟩ : Sys).value = [1, 2, 2] ∨
        (⟨false, [1, 2, 2], [[1], [2, 2]], [⟨none, []⟩, ⟨none, []⟩]⟩ : Sys).value = [2, 2, 1]) ∧
      (⟨false, [1, 2, 2], [[1], [2, 2]], [⟨none, []⟩, ⟨none, []⟩]⟩ : Sys).value ≠ [2, 1, 2]) := by
  refine ⟨by decide, C8_scenario_final _ ?_ (by decide)⟩
  exact Relation.ReflTransGen.tail (Relation.ReflTransGen.tail
    (Relation.ReflTransGen.tail (Relation.ReflTransGen.tail
      (Relation.ReflTransGen.tail (Relation.ReflTransGen.tail
        (Relation.ReflTransGen.single ⟨0, rfl⟩) ⟨0, rfl⟩) ⟨0, rfl⟩)
      ⟨1, rfl⟩) ⟨1, rfl⟩) ⟨1, rfl⟩) ⟨1, rfl⟩

end Spinlock
